import Mathlib

/-!
Shallow embedding of the `user_management` Go service:
the entity model (`models/user.go`), the GORM-backed repository
(`repository/user_repository.go`), the business service
(`service/user_service.go`), and the Gin controllers
(`controllers/user_controller.go`), together with theorems checking
the natural-language specification against this embedding.

The relational store is a list of rows plus a next-identifier counter;
GORM soft-delete semantics (queries add `deleted_at IS NULL`, `Delete`
sets the timestamp) are reflected in each repository operation.  The
Redis cache is a list of keyed snapshots with expiry timestamps; cache
backend success/failure is an explicit boolean oracle because the Go
code discards every cache error.  Repository and cache invocations are
recorded in an event trace so that claims about "no persistence call"
or "no uniqueness check" are statable.
-/

namespace UserMgmt

/-- Entity row, mirroring `models.User` (gorm.DeletedAt is a nullable
timestamp, modelled as `Option Nat`; timestamps are abstract `Nat`
instants, e.g. nanoseconds). -/
structure User where
  id : Nat
  name : String
  email : String
  age : Int
  phone : String
  address : String
  isActive : Bool
  createdAt : Nat
  updatedAt : Nat
  deletedAt : Option Nat
deriving Repr, DecidableEq

/-- A row is live when its soft-delete timestamp is unset. -/
def User.live (u : User) : Bool := u.deletedAt.isNone

/-- Mirror of `models.UserRequest`: `IsActive *bool` is `Option Bool`. -/
structure UserRequest where
  name : String
  email : String
  age : Int
  phone : String
  address : String
  isActive : Option Bool
deriving Repr, DecidableEq

/-- Mirror of `models.UserResponse` (storage fields minus `DeletedAt`). -/
structure UserResponse where
  id : Nat
  name : String
  email : String
  age : Int
  phone : String
  address : String
  isActive : Bool
  createdAt : Nat
  updatedAt : Nat
deriving Repr, DecidableEq

/-- Mirror of `models.User.ToResponse`. -/
def User.toResponse (u : User) : UserResponse :=
  { id := u.id, name := u.name, email := u.email, age := u.age,
    phone := u.phone, address := u.address, isActive := u.isActive,
    createdAt := u.createdAt, updatedAt := u.updatedAt }

/-- Mirror of `models.User.UpdateFromRequest`: name, email, age, phone,
address are overwritten wholesale; `IsActive` only when the request
carries an explicit value. -/
def User.updateFromRequest (u : User) (req : UserRequest) : User :=
  { u with
    name := req.name, email := req.email, age := req.age,
    phone := req.phone, address := req.address,
    isActive := match req.isActive with | some b => b | none => u.isActive }

/-- Relational store: rows in insertion (primary-key) order plus the
next auto-assigned identifier. -/
structure DB where
  rows : List User
  nextId : Nat
deriving Repr, DecidableEq

/-- Rows not soft-deleted, in storage order. -/
def DB.liveRows (db : DB) : List User := db.rows.filter (fun u => u.live)

def notFoundMsg : String := "user not found"
def duplicateMsg : String := "user with this email already exists"

/-- Mirror of `userRepository.GetByID`: `db.First(&user, id)` — first
row matching the id with `deleted_at IS NULL`, else a not-found error. -/
def repoGetByID (id : Nat) (db : DB) : Except String User :=
  match db.rows.find? (fun u => u.live && u.id == id) with
  | some u => .ok u
  | none => .error notFoundMsg

/-- Mirror of `userRepository.GetByEmail`: first live row with that
email, else a not-found error. -/
def repoGetByEmail (email : String) (db : DB) : Except String User :=
  match db.rows.find? (fun u => u.live && u.email == email) with
  | some u => .ok u
  | none => .error notFoundMsg

/-- Mirror of `userRepository.Create`.  The migrated schema puts a plain
unique index on `email` (`gorm:"uniqueIndex"`, and the documented SQL
`CREATE UNIQUE INDEX idx_users_email ON users(email)`), so the insert
collides with every existing row holding the email, soft-deleted rows
included.  On success GORM assigns the id and timestamps into the
passed struct, which the returned `User` reflects. -/
def repoCreate (u : User) (now : Nat) (db : DB) : Except String (User × DB) :=
  if db.rows.any (fun v => v.email == u.email) then
    .error duplicateMsg
  else
    let created : User :=
      { u with id := db.nextId, createdAt := now, updatedAt := now, deletedAt := none }
    .ok (created, { rows := db.rows ++ [created], nextId := db.nextId + 1 })

/-- Mirror of `userRepository.GetAll`: `Offset(offset).Limit(limit).Find`
over live rows in storage order. -/
def repoGetAll (offset limit : Int) (db : DB) : List User :=
  (db.liveRows.drop offset.toNat).take limit.toNat

/-- Mirror of `userRepository.Update` (`db.Save(user)`): rejects when a
different row (any row, the unique index ignores soft deletion) already
holds the email; otherwise rewrites the live row with this id, with
`UpdatedAt` set to now (GORM also writes it back into the struct). -/
def repoUpdate (u : User) (now : Nat) (db : DB) : Except String (User × DB) :=
  if db.rows.any (fun v => v.id != u.id && v.email == u.email) then
    .error duplicateMsg
  else
    let saved : User := { u with updatedAt := now }
    .ok (saved,
      { db with rows := db.rows.map (fun v => if v.live && v.id == u.id then saved else v) })

/-- Mirror of `userRepository.Delete`: soft delete — sets `deleted_at`
on the live row with this id; zero rows affected is a not-found error. -/
def repoDelete (id : Nat) (now : Nat) (db : DB) : Except String DB :=
  if db.rows.any (fun v => v.live && v.id == id) then
    .ok { db with rows := db.rows.map (fun v =>
      if v.live && v.id == id then { v with deletedAt := some now } else v) }
  else .error notFoundMsg

/-- Mirror of `userRepository.Count`: counts live rows. -/
def repoCount (db : DB) : Int := (db.liveRows.length : Int)

/-- Observable backend interactions of the service, for claims about
which persistence/cache operations an execution performs. -/
inductive Event where
  | getById (id : Nat)
  | getByEmail (email : String)
  | createRow
  | updateRow
  | getAll (offset limit : Int)
  | deleteRow (id : Nat)
  | countRows
  | cacheSet (id : Nat)
  | cacheGet (id : Nat)
  | cacheDel (id : Nat)
deriving Repr, DecidableEq

/-- Whether an event is a persistence-gateway call (as opposed to a
cache interaction). -/
def Event.isRepo : Event → Bool
  | .cacheSet _ => false
  | .cacheGet _ => false
  | .cacheDel _ => false
  | _ => true

/-- One Redis entry: key `user:<id>`, serialized snapshot, absolute
expiry instant (`Set` uses a 15-minute TTL). -/
structure CacheEntry where
  key : Nat
  val : User
  expiresAt : Nat
deriving Repr, DecidableEq

/-- `15 * time.Minute` in nanoseconds. -/
def cacheTTL : Nat := 15 * 60 * 1000000000

/-- Service-visible state: the store, the cache contents, whether a
Redis client is configured (`redisClient != nil`), and the event
trace. -/
structure SvcState where
  db : DB
  cache : List CacheEntry
  hasCache : Bool
  trace : List Event
deriving Repr, DecidableEq

def logEvent (e : Event) (s : SvcState) : SvcState :=
  { s with trace := s.trace ++ [e] }

/-- Mirror of `userService.cacheUser`: no-op without a client; attempts
a `Set` with 15-minute expiry; `ok` is the backend-success oracle — the
Go code ignores the returned status, so failure leaves the cache (and
any previous entry for the key) as it was. -/
def cacheUser (ok : Bool) (now : Nat) (u : User) (s : SvcState) : SvcState :=
  if s.hasCache then
    let s := logEvent (.cacheSet u.id) s
    if ok then
      { s with cache := s.cache.filter (fun e => e.key != u.id) ++ [⟨u.id, u, now + cacheTTL⟩] }
    else s
  else s

/-- Mirror of `userService.getCachedUser`: miss without a client; a
failed `Get` (absence, expiry, unreachable backend, bad payload —
`readOk = false` covers the failure modes) is a miss, never an error. -/
def getCachedUser (readOk : Bool) (now : Nat) (id : Nat) (s : SvcState) :
    Option User × SvcState :=
  if s.hasCache then
    let s := logEvent (.cacheGet id) s
    if readOk then
      match s.cache.find? (fun e => e.key == id) with
      | some e => if now < e.expiresAt then (some e.val, s) else (none, s)
      | none => (none, s)
    else (none, s)
  else (none, s)

/-- Mirror of `userService.removeCachedUser`: best-effort `Del`; the
result is ignored, so a failed delete leaves the entry behind. -/
def removeCachedUser (ok : Bool) (id : Nat) (s : SvcState) : SvcState :=
  if s.hasCache then
    let s := logEvent (.cacheDel id) s
    if ok then { s with cache := s.cache.filter (fun e => e.key != id) } else s
  else s

/-- Mirror of `userService.CreateUser`.  Note: the Go method performs no
field validation — it goes straight to the `GetByEmail` pre-check and
the insert. -/
def createUser (req : UserRequest) (now : Nat) (okSet : Bool) (s : SvcState) :
    Except String UserResponse × SvcState :=
  let s := logEvent (.getByEmail req.email) s
  match repoGetByEmail req.email s.db with
  | .ok _ => (.error ("user with email " ++ req.email ++ " already exists"), s)
  | .error _ =>
    let user : User :=
      { id := 0, name := req.name, email := req.email, age := req.age,
        phone := req.phone, address := req.address,
        isActive := match req.isActive with | some b => b | none => true,
        createdAt := 0, updatedAt := 0, deletedAt := none }
    let s := logEvent .createRow s
    match repoCreate user now s.db with
    | .error e => (.error ("failed to create user: " ++ e), s)
    | .ok (created, db) =>
      let s := cacheUser okSet now created { s with db := db }
      (.ok created.toResponse, s)

/-- Mirror of `userService.GetUserByID`: cache first, repository on
miss, repopulating the cache on a successful fetch. -/
def getUserByID (id : Nat) (now : Nat) (readOk okSet : Bool) (s : SvcState) :
    Except String UserResponse × SvcState :=
  match getCachedUser readOk now id s with
  | (some u, s) => (.ok u.toResponse, s)
  | (none, s) =>
    let s := logEvent (.getById id) s
    match repoGetByID id s.db with
    | .error e => (.error e, s)
    | .ok u =>
      let s := cacheUser okSet now u s
      (.ok u.toResponse, s)

/-- Mirror of `userService.GetAllUsers`: normalizes page/pageSize,
fetches the page and the live-row total, caching each returned user. -/
def getAllUsers (page pageSize : Int) (now : Nat) (okSet : Bool) (s : SvcState) :
    Except String (List UserResponse × Int) × SvcState :=
  let page := if page < 1 then 1 else page
  let pageSize := if pageSize < 1 || pageSize > 100 then 10 else pageSize
  let offset := (page - 1) * pageSize
  let s := logEvent (.getAll offset pageSize) s
  let users := repoGetAll offset pageSize s.db
  let s := logEvent .countRows s
  let total := repoCount s.db
  let s := users.foldl (fun acc u => cacheUser okSet now u acc) s
  (.ok (users.map User.toResponse, total), s)

/-- Straight-line tail of `userService.UpdateUser` after the uniqueness
pre-check: merge the request, persist via `Update`, refresh the cache. -/
def updateUserTail (user : User) (req : UserRequest) (now : Nat) (okSet : Bool)
    (s : SvcState) : Except String UserResponse × SvcState :=
  let merged := user.updateFromRequest req
  let s := logEvent .updateRow s
  match repoUpdate merged now s.db with
  | .error e => (.error ("failed to update user: " ++ e), s)
  | .ok (saved, db) =>
    let s := cacheUser okSet now saved { s with db := db }
    (.ok saved.toResponse, s)

/-- Mirror of `userService.UpdateUser`: fetch by id, run the
`GetByEmail` uniqueness pre-check only when the email changes, then
merge/persist/cache. -/
def updateUser (id : Nat) (req : UserRequest) (now : Nat) (okSet : Bool)
    (s : SvcState) : Except String UserResponse × SvcState :=
  let s := logEvent (.getById id) s
  match repoGetByID id s.db with
  | .error e => (.error e, s)
  | .ok user =>
    if user.email != req.email then
      let s := logEvent (.getByEmail req.email) s
      match repoGetByEmail req.email s.db with
      | .ok existing =>
        if existing.id != id then
          (.error ("user with email " ++ req.email ++ " already exists"), s)
        else
          updateUserTail user req now okSet s
      | .error _ => updateUserTail user req now okSet s
    else
      updateUserTail user req now okSet s

/-- Mirror of `userService.DeleteUser`: soft delete, then best-effort
cache invalidation. -/
def deleteUser (id : Nat) (now : Nat) (okDel : Bool) (s : SvcState) :
    Except String Unit × SvcState :=
  let s := logEvent (.deleteRow id) s
  match repoDelete id now s.db with
  | .error e => (.error ("failed to delete user: " ++ e), s)
  | .ok db =>
    let s := removeCachedUser okDel id { s with db := db }
    (.ok (), s)

/-- Go's `/` on `int`: truncated division toward zero, with a runtime
panic (modelled as `none`) when the divisor is zero. -/
def goIntDiv (a b : Int) : Option Int :=
  if b == 0 then none else some (Int.tdiv a b)

/-- Outcome of a handler: a response with an HTTP status, or a runtime
panic inside the handler. -/
inductive HandlerOut where
  | resp (status : Nat)
  | panic
deriving Repr, DecidableEq

/-- Mirror of `UserController.CreateUser`: `none` body is a
`ShouldBindJSON` failure (400); every service error is 400; success is
201.  The service is a parameter, as the controller sees only the
`UserService` interface. -/
def createUserHandler (body : Option UserRequest)
    (svc : UserRequest → Except String UserResponse) : HandlerOut :=
  match body with
  | none => .resp 400
  | some req =>
    match svc req with
    | .ok _ => .resp 201
    | .error _ => .resp 400

/-- Mirror of `UserController.GetUser`: unparsable id is 400; every
service error is 404; success is 200. -/
def getUserHandler (idParam : Option Nat)
    (svc : Nat → Except String UserResponse) : HandlerOut :=
  match idParam with
  | none => .resp 400
  | some id =>
    match svc id with
    | .ok _ => .resp 200
    | .error _ => .resp 404

/-- Mirror of `UserController.UpdateUser`: unparsable id or body is
400; the exact error string "user not found" is 404; every other
service error is 400; success is 200. -/
def updateUserHandler (idParam : Option Nat) (body : Option UserRequest)
    (svc : Nat → UserRequest → Except String UserResponse) : HandlerOut :=
  match idParam with
  | none => .resp 400
  | some id =>
    match body with
    | none => .resp 400
    | some req =>
      match svc id req with
      | .ok _ => .resp 200
      | .error e => if e == notFoundMsg then .resp 404 else .resp 400

/-- Mirror of `UserController.DeleteUser`: unparsable id is 400; the
exact wrapped string "failed to delete user: user not found" is 404;
every other service error is 500; success is 200. -/
def deleteUserHandler (idParam : Option Nat)
    (svc : Nat → Except String Unit) : HandlerOut :=
  match idParam with
  | none => .resp 400
  | some id =>
    match svc id with
    | .ok _ => .resp 200
    | .error e =>
      if e == "failed to delete user: " ++ notFoundMsg then .resp 404 else .resp 500

/-- Pagination metadata of the list response. -/
structure PageMeta where
  currentPage : Int
  pageSize : Int
  totalItems : Int
  totalPages : Int
deriving Repr, DecidableEq

/-- Outcome of the list handler. -/
inductive ListOut where
  | resp (status : Nat) (meta : Option PageMeta)
  | panic
deriving Repr, DecidableEq

/-- Mirror of `UserController.GetUsers` after the query parameters were
parsed (`strconv.Atoi` errors are ignored, so any unparsable value is
already 0): service error is 500; on success `totalPages` is computed
as `(total + pageSize - 1) / pageSize` with the raw, caller-supplied
`pageSize`, and the metadata echoes the raw `page`/`pageSize`. -/
def getUsersHandler (page pageSize : Int)
    (svcResult : Except String (List UserResponse × Int)) : ListOut :=
  match svcResult with
  | .error _ => .resp 500 none
  | .ok (_, total) =>
    match goIntDiv (total + pageSize - 1) pageSize with
    | none => .panic
    | some tp =>
      .resp 200 (some { currentPage := page, pageSize := pageSize,
                        totalItems := total, totalPages := tp })

/-- Modelled from the spec: the section 4.1 constraint on email syntax
("syntactically valid email address").  No validation code exists under
`src` (neither the service nor the Gin binding invokes a validator on
the `validate:` struct tags), so the spec's requirement is formalised
here for comparison: one `@` separating a nonempty local part from a
nonempty domain containing a dot. -/
def emailValidSpec (e : String) : Bool :=
  match e.split (fun c => c = '@') with
  | [l, d] => l.length > 0 && d.length > 0 && d.contains '.'
  | _ => false

/-- Modelled from the spec: the full section 4.1 request-validation
constraints (name length 2–100, valid email, age 0–150, phone empty or
length 10–20, address length at most 255).  The source contains no
implementation of these checks on any create/update path. -/
def validRequestSpec (req : UserRequest) : Prop :=
  2 ≤ req.name.length ∧ req.name.length ≤ 100 ∧
  emailValidSpec req.email = true ∧
  0 ≤ req.age ∧ req.age ≤ 150 ∧
  (req.phone.length = 0 ∨ (10 ≤ req.phone.length ∧ req.phone.length ≤ 20)) ∧
  req.address.length ≤ 255

instance (req : UserRequest) : Decidable (validRequestSpec req) := by
  unfold validRequestSpec; infer_instance

/-- Well-formed store: primary keys and emails are pairwise distinct
(primary-key and unique-index constraints) and every id is below the
next auto-assigned one. -/
def DB.wf (db : DB) : Prop :=
  db.rows.Pairwise (fun a b => a.id ≠ b.id ∧ a.email ≠ b.email) ∧
  ∀ u ∈ db.rows, u.id < db.nextId

/-- Cache coherence: every unexpired cache entry is the live row the
repository would return for that id. -/
def coherent (now : Nat) (s : SvcState) : Prop :=
  ∀ e ∈ s.cache, now < e.expiresAt → repoGetByID e.key s.db = .ok e.val

/- Concrete fixtures for witnesses and counterexamples. -/

def wUser1 : User :=
  { id := 1, name := "John Doe", email := "john@example.com", age := 30,
    phone := "", address := "", isActive := true, createdAt := 5, updatedAt := 5,
    deletedAt := none }

def wUser2 : User :=
  { id := 2, name := "Jane Smith", email := "jane@example.com", age := 25,
    phone := "", address := "", isActive := true, createdAt := 5, updatedAt := 5,
    deletedAt := none }

def wStateNoCache : SvcState :=
  { db := { rows := [wUser1, wUser2], nextId := 3 }, cache := [],
    hasCache := false, trace := [] }

def wStateCache : SvcState :=
  { db := { rows := [wUser1, wUser2], nextId := 3 }, cache := [],
    hasCache := true, trace := [] }

def wBadNameReq : UserRequest :=
  { name := "J", email := "fresh@example.com", age := 30,
    phone := "", address := "", isActive := none }

def wDupReq : UserRequest :=
  { name := "Jane Smith", email := "john@example.com", age := 25,
    phone := "", address := "", isActive := none }

/-- C1: the spec requires create/update requests violating a section
4.1 constraint to fail with a structured validation error before any
persistence or cache interaction; the code performs no such validation:
with a name of length 1 (violating the 2–100 rule) CreateUser runs the
GetByEmail pre-check and the insert, adds the row, and returns success,
and UpdateUser likewise persists the invalid fields.  The code
contradicts its own documentation (the declared `validate` struct tags,
the README's validation feature, the schema's business rules), so this
records the code-side behavior at the failing input. -/
theorem C1_no_validation_before_persistence :
    ¬ validRequestSpec wBadNameReq ∧
    (createUser wBadNameReq 7 true wStateNoCache).1 =
      .ok { id := 3, name := "J", email := "fresh@example.com", age := 30, phone := "",
            address := "", isActive := true, createdAt := 7, updatedAt := 7 } ∧
    (createUser wBadNameReq 7 true wStateNoCache).2.db.rows.length =
      wStateNoCache.db.rows.length + 1 ∧
    Event.createRow ∈ (createUser wBadNameReq 7 true wStateNoCache).2.trace ∧
    (updateUser 2 wBadNameReq 9 true wStateNoCache).1 =
      .ok { id := 2, name := "J", email := "fresh@example.com", age := 30, phone := "",
            address := "", isActive := true, createdAt := 5, updatedAt := 9 } :=
  ⟨by decide, rfl, rfl, by decide, rfl⟩

/-- C2: when some live row already holds the requested email (exact,
case-sensitive string match), CreateUser fails with the already-exists
error and leaves both the store (no new row, existing record unchanged)
and the cache untouched. -/
theorem C2_create_duplicate_email_rejected
    (s : SvcState) (req : UserRequest) (now : Nat) (okSet : Bool)
    (u : User) (hu : u ∈ s.db.rows) (hlive : u.live = true)
    (hem : u.email = req.email) :
    (createUser req now okSet s).1 =
      .error ("user with email " ++ req.email ++ " already exists") ∧
    (createUser req now okSet s).2.db = s.db ∧
    (createUser req now okSet s).2.cache = s.cache := by
  have hsome : (s.db.rows.find? (fun v => v.live && v.email == req.email)).isSome := by
    rw [List.find?_isSome]
    exact ⟨u, hu, by simp [hlive, hem]⟩
  obtain ⟨v, hv⟩ := Option.isSome_iff_exists.mp hsome
  simp [createUser, repoGetByEmail, logEvent, hv]

/-- C2 witness: concrete duplicate-email creation attempt. -/
theorem C2_witness :
    (createUser wDupReq 7 true wStateNoCache).1 =
      .error ("user with email " ++ wDupReq.email ++ " already exists") ∧
    (createUser wDupReq 7 true wStateNoCache).2.db = wStateNoCache.db ∧
    (createUser wDupReq 7 true wStateNoCache).2.cache = wStateNoCache.cache :=
  C2_create_duplicate_email_rejected wStateNoCache wDupReq 7 true wUser1
    (by decide) (by decide) (by decide)

/-- C9 counterexample: the claim maps unclassified internal failures to
500, but the GetUser handler maps every service error — including a
storage connectivity failure — to 404. -/
theorem C9_counterexample :
    getUserHandler (some 1) (fun _ => .error "connection refused") = .resp 404 ∧
    (404 : Nat) ≠ 500 :=
  ⟨rfl, by decide⟩

/-- C9 (amended): the status mapping as implemented.  Parse failures
are 400; create maps success to 201 and every service error to 400;
get maps success to 200 and every service error (NotFound and internal
failures alike) to 404; update maps success to 200, the exact
"user not found" error to 404, and every other error (AlreadyExists or
internal) to 400; delete maps success to 200, the wrapped not-found
error to 404, and every other error to 500; the list handler maps
success to 200 and every error to 500. -/
theorem C9_handler_status_mapping
    (svcC : UserRequest → Except String UserResponse)
    (svcG : Nat → Except String UserResponse)
    (svcU : Nat → UserRequest → Except String UserResponse)
    (svcD : Nat → Except String Unit)
    (id : Nat) (req : UserRequest) (r : UserResponse) (e : String)
    (users : List UserResponse) (total page pageSize : Int) :
    (createUserHandler none svcC = .resp 400) ∧
    (svcC req = .ok r → createUserHandler (some req) svcC = .resp 201) ∧
    (svcC req = .error e → createUserHandler (some req) svcC = .resp 400) ∧
    (getUserHandler none svcG = .resp 400) ∧
    (svcG id = .ok r → getUserHandler (some id) svcG = .resp 200) ∧
    (svcG id = .error e → getUserHandler (some id) svcG = .resp 404) ∧
    (updateUserHandler none (some req) svcU = .resp 400) ∧
    (updateUserHandler (some id) none svcU = .resp 400) ∧
    (svcU id req = .ok r → updateUserHandler (some id) (some req) svcU = .resp 200) ∧
    (svcU id req = .error notFoundMsg →
      updateUserHandler (some id) (some req) svcU = .resp 404) ∧
    (svcU id req = .error e → e ≠ notFoundMsg →
      updateUserHandler (some id) (some req) svcU = .resp 400) ∧
    (deleteUserHandler none svcD = .resp 400) ∧
    (svcD id = .ok () → deleteUserHandler (some id) svcD = .resp 200) ∧
    (svcD id = .error ("failed to delete user: " ++ notFoundMsg) →
      deleteUserHandler (some id) svcD = .resp 404) ∧
    (svcD id = .error e → e ≠ "failed to delete user: " ++ notFoundMsg →
      deleteUserHandler (some id) svcD = .resp 500) ∧
    (getUsersHandler page pageSize (.error e) = .resp 500 none) ∧
    (pageSize ≠ 0 → ∃ tp, getUsersHandler page pageSize (.ok (users, total)) =
      .resp 200 (some { currentPage := page, pageSize := pageSize,
                        totalItems := total, totalPages := tp })) := by
  refine ⟨rfl, ?_, ?_, rfl, ?_, ?_, rfl, rfl, ?_, ?_, ?_, rfl, ?_, ?_, ?_, rfl, ?_⟩
  · intro h; simp [createUserHandler, h]
  · intro h; simp [createUserHandler, h]
  · intro h; simp [getUserHandler, h]
  · intro h; simp [getUserHandler, h]
  · intro h; simp [updateUserHandler, h]
  · intro h; simp [updateUserHandler, h]
  · intro h hne; simp [updateUserHandler, h, hne]
  · intro h; simp [deleteUserHandler, h]
  · intro h; simp [deleteUserHandler, h]
  · intro h hne; simp [deleteUserHandler, h, hne]
  · intro h
    exact ⟨Int.tdiv (total + pageSize - 1) pageSize,
      by simp [getUsersHandler, goIntDiv, h]⟩

/-- C9 amended witness: one concrete outcome per interesting branch. -/
theorem C9_amended_witness :
    createUserHandler (some wDupReq) (fun _ => .ok wUser1.toResponse) = .resp 201 ∧
    getUserHandler (some 1) (fun _ => .error "database is down") = .resp 404 ∧
    updateUserHandler (some 1) (some wDupReq) (fun _ _ => .error notFoundMsg) = .resp 404 ∧
    updateUserHandler (some 1) (some wDupReq) (fun _ _ => .error "database is down") = .resp 400 ∧
    deleteUserHandler (some 1) (fun _ => .error "database is down") = .resp 500 ∧
    getUsersHandler 1 10 (.ok ([], 25)) =
      .resp 200 (some { currentPage := 1, pageSize := 10, totalItems := 25, totalPages := 3 }) := by
  have h := C9_handler_status_mapping
    (fun _ => .ok wUser1.toResponse)
    (fun _ => .error "database is down")
    (fun _ _ => .error notFoundMsg)
    (fun _ => .error "database is down")
    1 wDupReq wUser1.toResponse "database is down" [] 25 1 10
  have h2 := C9_handler_status_mapping
    (fun _ => .ok wUser1.toResponse)
    (fun _ => .error "database is down")
    (fun _ _ => .error "database is down")
    (fun _ => .error "database is down")
    1 wDupReq wUser1.toResponse "database is down" [] 25 1 10
  obtain ⟨-, hc2, -, -, -, hg404, -, -, -, hu404, -, -, -, -, hd500, -, hlist⟩ := h
  obtain ⟨-, -, -, -, -, -, -, -, -, -, hu400, -, -, -, -, -, -⟩ := h2
  refine ⟨hc2 rfl, hg404 rfl, ?_, ?_, ?_, ?_⟩
  · exact hu404 rfl
  · exact hu400 rfl (by decide)
  · exact hd500 rfl (by decide)
  · obtain ⟨tp, htp⟩ := hlist (by decide)
    have : tp = 3 := by
      have h3 : getUsersHandler 1 10 (.ok ([], 25)) =
          .resp 200 (some { currentPage := 1, pageSize := 10,
                            totalItems := 25, totalPages := 3 }) := rfl
      rw [h3] at htp
      cases htp
      rfl
    rw [this] at htp
    exact htp

/-- C10: the list handler computes total_pages as
(total + pageSize − 1) / pageSize with the raw caller-supplied
page_size: with page_size = 0 the division divides by zero (a Go
runtime panic) even though the service call itself succeeded (the
service normalized 0 to 10 for the query), and for any nonzero
page_size the pagination metadata echoes the raw page and page_size
rather than the normalized values. -/
theorem C10_raw_page_size_division :
    (∀ (users : List UserResponse) (total page : Int),
      getUsersHandler page 0 (.ok (users, total)) = .panic) ∧
    (∀ (page : Int) (now : Nat) (okSet : Bool) (s : SvcState),
      ∃ out, (getAllUsers page 0 now okSet s).1 = .ok out ∧
        out.1 = ((s.db.liveRows.drop
          ((((if page < 1 then 1 else page) - 1) * 10).toNat)).take 10).map
            User.toResponse) ∧
    (∀ (users : List UserResponse) (total page pageSize : Int), pageSize ≠ 0 →
      getUsersHandler page pageSize (.ok (users, total)) =
        .resp 200 (some { currentPage := page, pageSize := pageSize,
                          totalItems := total,
                          totalPages := Int.tdiv (total + pageSize - 1) pageSize })) := by
  refine ⟨fun users total page => rfl, ?_, ?_⟩
  · intro page now okSet s
    refine ⟨_, rfl, ?_⟩
    simp [getAllUsers, repoGetAll, logEvent]
  · intro users total page pageSize h
    simp [getUsersHandler, goIntDiv, h]

/-- C10 witness: page_size 0 panics after a successful service call;
page_size 200 echoes the raw value (the service would have used 10). -/
theorem C10_witness :
    getUsersHandler 1 0 (.ok ([], 25)) = .panic ∧
    (getAllUsers 1 0 9 true wStateNoCache).1 =
      .ok ([wUser1.toResponse, wUser2.toResponse], 2) ∧
    getUsersHandler 5 200 (.ok ([], 25)) =
      .resp 200 (some { currentPage := 5, pageSize := 200, totalItems := 25,
                        totalPages := 1 }) := by
  refine ⟨C10_raw_page_size_division.1 [] 25 1, ?_, ?_⟩
  · obtain ⟨out, hout, hval⟩ := C10_raw_page_size_division.2.1 1 9 true wStateNoCache
    rw [hout]
    have : out = ([wUser1.toResponse, wUser2.toResponse], 2) := by
      have h1 : (getAllUsers 1 0 9 true wStateNoCache).1 =
          .ok ([wUser1.toResponse, wUser2.toResponse], 2) := rfl
      rw [h1] at hout
      cases hout
      rfl
    rw [this]
  · have h := C10_raw_page_size_division.2.2 [] 25 5 200 (by decide)
    rw [h]
    rfl

theorem cacheUser_db (ok : Bool) (now : Nat) (u : User) (s : SvcState) :
    (cacheUser ok now u s).db = s.db := by
  unfold cacheUser logEvent
  split <;> [skip; rfl]
  split <;> rfl

theorem cacheUser_trace_extend (ok : Bool) (now : Nat) (u : User) (s : SvcState) :
    ∃ t, (cacheUser ok now u s).trace = s.trace ++ t ∧
      ∀ e ∈ t, e = Event.cacheSet u.id := by
  unfold cacheUser logEvent
  split
  · split
    · exact ⟨[.cacheSet u.id], rfl, by simp⟩
    · exact ⟨[.cacheSet u.id], rfl, by simp⟩
  · exact ⟨[], by simp⟩

theorem foldl_cacheUser_trace_extend (ok : Bool) (now : Nat) (l : List User)
    (s : SvcState) :
    ∃ t, (l.foldl (fun acc u => cacheUser ok now u acc) s).trace = s.trace ++ t ∧
      ∀ e ∈ t, ∃ id, e = Event.cacheSet id := by
  induction l generalizing s with
  | nil => exact ⟨[], by simp⟩
  | cons u l ih =>
    obtain ⟨t1, h1, he1⟩ := cacheUser_trace_extend ok now u s
    obtain ⟨t2, h2, he2⟩ := ih (cacheUser ok now u s)
    refine ⟨t1 ++ t2, by simp [List.foldl_cons, h2, h1], ?_⟩
    intro e he
    rcases List.mem_append.mp he with h | h
    · exact ⟨u.id, he1 e h⟩
    · exact he2 e h

/-- C6: GetAllUsers normalizes page to max(page, 1) and pageSize to the
range 1–100 (default 10 otherwise), queries the gateway with
offset = (page'−1)·pageSize' and limit = pageSize', and returns exactly
that window of the live rows together with the total live-row count. -/
theorem C6_pagination_normalization
    (page pageSize : Int) (now : Nat) (okSet : Bool) (s : SvcState) :
    (getAllUsers page pageSize now okSet s).1 =
      .ok (((s.db.liveRows.drop
              ((((if 1 ≤ page then page else 1) - 1) *
                (if 1 ≤ pageSize ∧ pageSize ≤ 100 then pageSize else 10)).toNat)).take
              (if 1 ≤ pageSize ∧ pageSize ≤ 100 then pageSize else 10).toNat).map
            User.toResponse,
          (s.db.liveRows.length : Int)) ∧
    Event.getAll
        (((if 1 ≤ page then page else 1) - 1) *
          (if 1 ≤ pageSize ∧ pageSize ≤ 100 then pageSize else 10))
        (if 1 ≤ pageSize ∧ pageSize ≤ 100 then pageSize else 10) ∈
      (getAllUsers page pageSize now okSet s).2.trace := by
  have hp : (if page < 1 then (1 : Int) else page) = (if 1 ≤ page then page else 1) := by
    split_ifs <;> omega
  have hps : (if (pageSize < 1 || pageSize > 100 : Bool) then (10 : Int) else pageSize) =
      (if 1 ≤ pageSize ∧ pageSize ≤ 100 then pageSize else 10) := by
    simp only [Bool.or_eq_true, decide_eq_true_eq]
    split_ifs <;> first | rfl | omega
  unfold getAllUsers
  rw [hp, hps]
  constructor
  · rfl
  · set p1 : Int := (if 1 ≤ page then page else 1) with hp1
    set ps1 : Int := (if 1 ≤ pageSize ∧ pageSize ≤ 100 then pageSize else 10) with hps1
    obtain ⟨t, ht, -⟩ := foldl_cacheUser_trace_extend okSet now
      (repoGetAll ((p1 - 1) * ps1) ps1 (logEvent (.getAll ((p1 - 1) * ps1) ps1) s).db)
      (logEvent .countRows (logEvent (.getAll ((p1 - 1) * ps1) ps1) s))
    dsimp only
    rw [ht]
    simp [logEvent]

@[simp] theorem logEvent_db (e : Event) (s : SvcState) : (logEvent e s).db = s.db := rfl

@[simp] theorem logEvent_cache (e : Event) (s : SvcState) :
    (logEvent e s).cache = s.cache := rfl

@[simp] theorem logEvent_hasCache (e : Event) (s : SvcState) :
    (logEvent e s).hasCache = s.hasCache := rfl

@[simp] theorem logEvent_trace (e : Event) (s : SvcState) :
    (logEvent e s).trace = s.trace ++ [e] := rfl

theorem wf_id_inj {db : DB} (h : db.wf) {a b : User}
    (ha : a ∈ db.rows) (hb : b ∈ db.rows) (hid : a.id = b.id) : a = b := by
  by_contra hne
  exact (h.1.forall (fun x y hxy => ⟨hxy.1.symm, hxy.2.symm⟩) ha hb hne).1 hid

theorem wf_email_inj {db : DB} (h : db.wf) {a b : User}
    (ha : a ∈ db.rows) (hb : b ∈ db.rows) (hem : a.email = b.email) : a = b := by
  by_contra hne
  exact (h.1.forall (fun x y hxy => ⟨hxy.1.symm, hxy.2.symm⟩) ha hb hne).2 hem

theorem repoGetByID_elim {id : Nat} {db : DB} {u : User}
    (h : repoGetByID id db = .ok u) :
    u ∈ db.rows ∧ u.live = true ∧ u.id = id := by
  unfold repoGetByID at h
  cases hf : db.rows.find? (fun v => v.live && v.id == id) with
  | none => rw [hf] at h; cases h
  | some v =>
    rw [hf] at h
    cases h
    have hp := List.find?_some hf
    simp only [Bool.and_eq_true, beq_iff_eq] at hp
    exact ⟨List.mem_of_find?_eq_some hf, hp.1, hp.2⟩

theorem repoGetByEmail_elim {email : String} {db : DB} {u : User}
    (h : repoGetByEmail email db = .ok u) :
    u ∈ db.rows ∧ u.live = true ∧ u.email = email := by
  unfold repoGetByEmail at h
  cases hf : db.rows.find? (fun v => v.live && v.email == email) with
  | none => rw [hf] at h; cases h
  | some v =>
    rw [hf] at h
    cases h
    have hp := List.find?_some hf
    simp only [Bool.and_eq_true, beq_iff_eq] at hp
    exact ⟨List.mem_of_find?_eq_some hf, hp.1, hp.2⟩

theorem updateUserTail_trace (user : User) (req : UserRequest) (now : Nat)
    (okSet : Bool) (s : SvcState) :
    ∃ t, (updateUserTail user req now okSet s).2.trace = s.trace ++ t ∧
      ∀ em, Event.getByEmail em ∉ t := by
  unfold updateUserTail
  simp only [logEvent_db]
  cases h : repoUpdate (user.updateFromRequest req) now s.db with
  | error e => exact ⟨[.updateRow], by simp, by simp⟩
  | ok p =>
    obtain ⟨t1, h1, he1⟩ := cacheUser_trace_extend okSet now p.1
      { logEvent .updateRow s with db := p.2 }
    refine ⟨[.updateRow] ++ t1, ?_, ?_⟩
    · simpa [List.append_assoc] using h1
    · intro em hm
      rcases List.mem_append.mp hm with hm | hm
      · simp at hm
      · have := he1 _ hm
        simp at this

/-- C3: on UpdateUser, (1) when the request email differs from the
stored one and a different live user owns it, the call fails with the
already-exists error and the store is untouched; (2) when the request
email equals the stored one, no GetByEmail uniqueness check is made at
all (no such gateway event is produced by the call). -/
theorem C3_update_email_uniqueness
    (s : SvcState) (id : Nat) (req : UserRequest) (now : Nat) (okSet : Bool)
    (u : User) (hwf : s.db.wf) (hget : repoGetByID id s.db = .ok u) :
    ((u.email ≠ req.email ∧
      ∃ w ∈ s.db.rows, w.live = true ∧ w.email = req.email ∧ w.id ≠ id) →
      (updateUser id req now okSet s).1 =
        .error ("user with email " ++ req.email ++ " already exists") ∧
      (updateUser id req now okSet s).2.db = s.db) ∧
    (u.email = req.email →
      ∀ em, Event.getByEmail em ∉
        (updateUser id req now okSet s).2.trace.drop s.trace.length) := by
  obtain ⟨humem, hulive, huid⟩ := repoGetByID_elim hget
  constructor
  · rintro ⟨hne, w, hwmem, hwlive, hwemail, hwid⟩
    have hsome : (s.db.rows.find? (fun v => v.live && v.email == req.email)).isSome := by
      rw [List.find?_isSome]
      exact ⟨w, hwmem, by simp [hwlive, hwemail]⟩
    obtain ⟨v, hv⟩ := Option.isSome_iff_exists.mp hsome
    have hvp := List.find?_some hv
    simp only [Bool.and_eq_true, beq_iff_eq] at hvp
    have hvmem := List.mem_of_find?_eq_some hv
    have hvid : v.id ≠ id := by
      intro hvid
      have : v = u := wf_id_inj hwf hvmem humem (by rw [hvid, huid])
      rw [this] at hvp
      exact hne hvp.2
    have hbne : (u.email != req.email) = true := by
      simp only [bne_iff_ne, ne_eq]
      exact hne
    have hvbne : (v.id != id) = true := by
      simp only [bne_iff_ne, ne_eq]
      exact hvid
    unfold updateUser repoGetByEmail
    simp only [logEvent_db, hget, hbne, hv, if_true, hvbne]
    exact ⟨trivial, trivial⟩
  · intro heq em
    have hbeq : (u.email != req.email) = false := by
      simp only [bne_eq_false_iff_eq]
      exact heq
    obtain ⟨t, ht, hno⟩ :=
      updateUserTail_trace u req now okSet (logEvent (.getById id) s)
    unfold updateUser
    simp only [logEvent_db, hget, hbeq, Bool.false_eq_true, if_false]
    rw [ht]
    simp only [logEvent_trace, List.append_assoc, List.drop_left]
    intro hm
    rcases List.mem_append.mp hm with hm | hm
    · simp at hm
    · exact hno em hm

def wReqOtherEmail : UserRequest :=
  { name := "John Doe", email := "jane@example.com", age := 30,
    phone := "", address := "", isActive := none }

def wReqSameEmail : UserRequest :=
  { name := "John Updated", email := "john@example.com", age := 31,
    phone := "", address := "", isActive := none }

def wReqActiveFalse : UserRequest :=
  { name := "John Updated", email := "john@example.com", age := 31,
    phone := "", address := "", isActive := some false }

/-- C3 witness: updating user 1 to user 2's email fails and leaves the
store untouched; updating user 1 under its own email emits no
GetByEmail event. -/
theorem C3_witness :
    (updateUser 1 wReqOtherEmail 9 true wStateNoCache).1 =
      .error ("user with email " ++ wReqOtherEmail.email ++ " already exists") ∧
    (updateUser 1 wReqOtherEmail 9 true wStateNoCache).2.db = wStateNoCache.db ∧
    Event.getByEmail "jane@example.com" ∉
      (updateUser 1 wReqSameEmail 9 true wStateNoCache).2.trace.drop
        wStateNoCache.trace.length := by
  have h1 := C3_update_email_uniqueness wStateNoCache 1 wReqOtherEmail 9 true wUser1
    (by constructor <;> decide) rfl
  have h2 := C3_update_email_uniqueness wStateNoCache 1 wReqSameEmail 9 true wUser1
    (by constructor <;> decide) rfl
  obtain ⟨ha, hb⟩ := h1.1 ⟨by decide, wUser2, by decide, rfl, rfl, by decide⟩
  exact ⟨ha, hb, h2.2 rfl "jane@example.com"⟩

@[simp] theorem cacheUser_db_eq (ok : Bool) (now : Nat) (u : User) (s : SvcState) :
    (cacheUser ok now u s).db = s.db := cacheUser_db ok now u s

theorem updateUserTail_ok (user : User) (req : UserRequest) (now : Nat) (okSet : Bool)
    (s : SvcState) (resp : UserResponse) (s' : SvcState)
    (h : updateUserTail user req now okSet s = (.ok resp, s')) :
    resp = { user.updateFromRequest req with updatedAt := now }.toResponse ∧
    s'.db.rows = s.db.rows.map (fun v =>
      if v.live && v.id == user.id then
        { user.updateFromRequest req with updatedAt := now } else v) ∧
    s'.db.nextId = s.db.nextId := by
  unfold updateUserTail at h
  simp only [logEvent_db] at h
  unfold repoUpdate at h
  split at h
  · simp at h
  · rename_i created db heq
    split at heq
    · simp at heq
    · simp only [Except.ok.injEq, Prod.mk.injEq] at heq
      obtain ⟨hsaved, hdb⟩ := heq
      subst hsaved
      subst hdb
      rw [Prod.mk.injEq] at h
      obtain ⟨h1, h2⟩ := h
      simp only [Except.ok.injEq] at h1
      refine ⟨h1.symm, ?_, ?_⟩ <;>
        (rw [← h2]; simp only [cacheUser_db_eq]; try rfl)

/-- C5: a successful UpdateUser rewrites the fetched row (and only it)
to the merge of the request: name, email, age, phone and address are
overwritten wholesale, the active flag is taken from the request only
when explicitly provided (otherwise kept), and the identifier, the
creation timestamp and the deletion state are unchanged; every other
row and the id counter are untouched. -/
theorem C5_update_merges_exactly
    (s : SvcState) (id : Nat) (req : UserRequest) (now : Nat) (okSet : Bool)
    (u : User) (hget : repoGetByID id s.db = .ok u)
    (resp : UserResponse) (s' : SvcState)
    (hok : updateUser id req now okSet s = (.ok resp, s')) :
    s'.db.rows = s.db.rows.map (fun v =>
      if v.live && v.id == id then
        { u.updateFromRequest req with updatedAt := now } else v) ∧
    s'.db.nextId = s.db.nextId ∧
    resp = { u.updateFromRequest req with updatedAt := now }.toResponse ∧
    (u.updateFromRequest req).id = u.id ∧
    (u.updateFromRequest req).createdAt = u.createdAt ∧
    (u.updateFromRequest req).deletedAt = u.deletedAt ∧
    (u.updateFromRequest req).name = req.name ∧
    (u.updateFromRequest req).email = req.email ∧
    (u.updateFromRequest req).age = req.age ∧
    (u.updateFromRequest req).phone = req.phone ∧
    (u.updateFromRequest req).address = req.address ∧
    (req.isActive = none → (u.updateFromRequest req).isActive = u.isActive) ∧
    (∀ b, req.isActive = some b → (u.updateFromRequest req).isActive = b) := by
  obtain ⟨humem, hulive, huid⟩ := repoGetByID_elim hget
  have htail : updateUserTail u req now okSet (logEvent (.getById id) s) = (.ok resp, s') ∨
      updateUserTail u req now okSet
        (logEvent (.getByEmail req.email) (logEvent (.getById id) s)) = (.ok resp, s') := by
    unfold updateUser at hok
    simp only [logEvent_db, hget] at hok
    cases hc : u.email != req.email with
    | false => simp only [hc, Bool.false_eq_true, if_false] at hok; exact .inl hok
    | true =>
      simp only [hc, if_true] at hok
      cases hfe : repoGetByEmail req.email s.db with
      | ok ex =>
        rw [hfe] at hok
        cases hex : ex.id != id with
        | false => simp only [hex, Bool.false_eq_true, if_false] at hok; exact .inr hok
        | true => simp only [hex, if_true] at hok; simp at hok
      | error e =>
        rw [hfe] at hok
        exact .inr hok
  have hmain : resp = { u.updateFromRequest req with updatedAt := now }.toResponse ∧
      s'.db.rows = s.db.rows.map (fun v =>
        if v.live && v.id == u.id then
          { u.updateFromRequest req with updatedAt := now } else v) ∧
      s'.db.nextId = s.db.nextId := by
    rcases htail with h | h
    · have := updateUserTail_ok u req now okSet _ resp s' h
      simpa using this
    · have := updateUserTail_ok u req now okSet _ resp s' h
      simpa using this
  rw [huid] at hmain
  refine ⟨hmain.2.1, hmain.2.2, hmain.1, rfl, rfl, rfl, rfl, rfl, rfl, rfl, rfl, ?_, ?_⟩
  · intro h
    simp [User.updateFromRequest, h]
  · intro b h
    simp [User.updateFromRequest, h]

/-- C5 witness: a concrete successful update with an explicit false
active flag. -/
theorem C5_witness :
    (updateUser 1 wReqActiveFalse 9 true wStateNoCache).2.db.rows =
      wStateNoCache.db.rows.map (fun v =>
        if v.live && v.id == 1 then
          { wUser1.updateFromRequest wReqActiveFalse with updatedAt := 9 } else v) ∧
    (wUser1.updateFromRequest wReqActiveFalse).isActive = false ∧
    (wUser1.updateFromRequest wReqActiveFalse).createdAt = wUser1.createdAt ∧
    (wUser1.updateFromRequest wReqActiveFalse).deletedAt = wUser1.deletedAt := by
  have h := C5_update_merges_exactly wStateNoCache 1 wReqActiveFalse 9 true wUser1 rfl
    ((updateUser 1 wReqActiveFalse 9 true wStateNoCache).1.toOption.getD
      wUser1.toResponse)
    (updateUser 1 wReqActiveFalse 9 true wStateNoCache).2 rfl
  obtain ⟨hrows, -, -, -, hcreated, hdeleted, -, -, -, -, -, -, hact⟩ := h
  exact ⟨hrows, hact false rfl, hcreated, hdeleted⟩

/-- The soft-delete row rewrite used by `repoDelete`. -/
def markDeleted (id : Nat) (now : Nat) (v : User) : User :=
  if v.live && v.id == id then { v with deletedAt := some now } else v

theorem deleteUser_ok (id : Nat) (now : Nat) (s : SvcState) (s' : SvcState)
    (h : deleteUser id now true s = (.ok (), s')) :
    s'.db.rows = s.db.rows.map (markDeleted id now) ∧
    s'.db.nextId = s.db.nextId ∧
    (s.db.rows.any fun v => v.live && v.id == id) = true ∧
    s'.cache = (if s.hasCache then s.cache.filter (fun e => e.key != id) else s.cache) ∧
    s'.hasCache = s.hasCache := by
  unfold deleteUser at h
  simp only [logEvent_db] at h
  unfold repoDelete at h
  split at h
  · simp at h
  · rename_i db heq
    split at heq
    · rename_i hany
      simp only [Except.ok.injEq] at heq
      subst heq
      rw [Prod.mk.injEq] at h
      obtain ⟨-, h2⟩ := h
      subst h2
      unfold removeCachedUser
      by_cases hc : s.hasCache
      · simp [hc, markDeleted, hany]
      · simp [hc, markDeleted, hany]
    · exact absurd heq (by simp)

theorem markDeleted_not_live (id : Nat) (now : Nat) (v : User)
    (h : v.live = true ∧ v.id = id) : (markDeleted id now v).live = false := by
  unfold markDeleted
  rw [if_pos (by simp [h.1, h.2])]
  simp [User.live]

theorem no_live_with_id_after_mark (rows : List User) (id : Nat) (now : Nat) :
    ∀ v ∈ rows.map (markDeleted id now), ¬(v.live = true ∧ v.id = id) := by
  intro v hv hvp
  obtain ⟨w, hw, rfl⟩ := List.mem_map.mp hv
  by_cases h : (w.live && w.id == id) = true
  · have := markDeleted_not_live id now w (by simpa using h)
    rw [this] at hvp
    cases hvp.1
  · have hw_eq : markDeleted id now w = w := by
      unfold markDeleted
      rw [if_neg (by simp [h])]
    rw [hw_eq] at hvp
    apply h
    simp [hvp.1, hvp.2]

theorem find?_live_id_after_mark (rows : List User) (id : Nat) (now : Nat) :
    (rows.map (markDeleted id now)).find? (fun v => v.live && v.id == id) = none := by
  rw [List.find?_eq_none]
  intro v hv
  have := no_live_with_id_after_mark rows id now v hv
  simp only [Bool.and_eq_true, beq_iff_eq]
  intro hc
  exact this ⟨hc.1, hc.2⟩

theorem filter_live_map_mark (rows : List User) (id : Nat) (now : Nat) :
    (rows.map (markDeleted id now)).filter (fun u => u.live) =
      (rows.filter (fun u => u.live)).filter (fun v => !(v.id == id)) := by
  induction rows with
  | nil => rfl
  | cons w rows ih =>
    simp only [List.map_cons, List.filter_cons]
    by_cases hmark : (w.live && w.id == id) = true
    · have hand := (Bool.and_eq_true _ _).mp hmark
      have hlive : w.live = true := hand.1
      have hid : (w.id == id) = true := hand.2
      have hnl : (markDeleted id now w).live = false :=
        markDeleted_not_live id now w (by simpa using hmark)
      rw [hnl]
      simp only [Bool.false_eq_true, if_false, hlive, if_true, List.filter_cons, hid,
        Bool.not_true, Bool.false_eq_true, if_false]
      exact ih
    · have hw_eq : markDeleted id now w = w := by
        unfold markDeleted
        rw [if_neg (by simp [hmark])]
      rw [hw_eq]
      by_cases hlive : w.live = true
      · have hid : (w.id == id) = false := by
          rcases Bool.and_eq_false_iff.mp (Bool.not_eq_true _ |>.mp hmark) with h | h
          · rw [hlive] at h; cases h
          · exact h
        simp only [hlive, if_true, List.filter_cons, hid, Bool.not_false, if_true]
        rw [ih]
      · have hlf : w.live = false := Bool.not_eq_true _ |>.mp hlive
        simp only [hlf, Bool.false_eq_true, if_false]
        exact ih

theorem getCachedUser_none (readOk : Bool) (now id : Nat) (s : SvcState)
    (h : ∀ e ∈ s.cache, e.key ≠ id) :
    (getCachedUser readOk now id s).1 = none := by
  unfold getCachedUser
  split
  · simp only [logEvent_cache]
    split
    · rw [List.find?_eq_none.mpr (by
        intro e he
        simp only [beq_iff_eq]
        exact fun hc => h e he hc)]
    · rfl
  · rfl

@[simp] theorem getCachedUser_snd_db (readOk : Bool) (now id : Nat) (s : SvcState) :
    (getCachedUser readOk now id s).2.db = s.db := by
  unfold getCachedUser
  split
  · dsimp only
    split
    · split
      · split <;> rfl
      · rfl
    · rfl
  · rfl

theorem markDeleted_email (id : Nat) (now : Nat) (v : User) :
    (markDeleted id now v).email = v.email := by
  unfold markDeleted
  split <;> rfl

theorem getCachedUser_none_of_noCache (readOk : Bool) (now id : Nat) (s : SvcState)
    (h : s.hasCache = false) : (getCachedUser readOk now id s).1 = none := by
  unfold getCachedUser
  rw [h]
  rfl

theorem getUserByID_miss_notFound (id : Nat) (now : Nat) (readOk okSet : Bool)
    (s : SvcState)
    (hmiss : (getCachedUser readOk now id s).1 = none)
    (hfind : s.db.rows.find? (fun v => v.live && v.id == id) = none) :
    (getUserByID id now readOk okSet s).1 = .error notFoundMsg := by
  unfold getUserByID
  cases hq : getCachedUser readOk now id s with
  | mk o s2 =>
    rw [hq] at hmiss
    dsimp only at hmiss
    subst hmiss
    have hdb : s2.db = s.db := by
      have : (getCachedUser readOk now id s).2 = s2 := by rw [hq]
      rw [← this, getCachedUser_snd_db]
    dsimp only
    unfold repoGetByID
    simp only [logEvent_db, hdb, hfind]

theorem getAllUsers_fst (page pageSize : Int) (now : Nat) (okSet : Bool)
    (s : SvcState) :
    (getAllUsers page pageSize now okSet s).1 =
      .ok ((repoGetAll
          (((if page < 1 then 1 else page) - 1) *
            (if (pageSize < 1 || pageSize > 100 : Bool) then 10 else pageSize))
          (if (pageSize < 1 || pageSize > 100 : Bool) then 10 else pageSize)
          s.db).map User.toResponse,
        repoCount s.db) := rfl

/-- C4 counterexample: soft-deleting user 1 (email john@example.com)
removes it from the service's GetByEmail uniqueness pre-check, yet a
subsequent CreateUser with that very email still fails — the unique
email index covers the soft-deleted storage row, so the deleted user is
not excluded from email-uniqueness enforcement as the claim states. -/
theorem C4_counterexample :
    (deleteUser 1 6 true wStateCache).1 = .ok () ∧
    repoGetByEmail "john@example.com" (deleteUser 1 6 true wStateCache).2.db =
      .error notFoundMsg ∧
    (createUser wDupReq 7 true (deleteUser 1 6 true wStateCache).2).1 =
      .error ("failed to create user: " ++ duplicateMsg) :=
  ⟨rfl, rfl, rfl⟩

/-- C4 (amended): after a successful DeleteUser on id, GetUserByID(id)
returns NotFound, the user is in no GetAllUsers page, the live rows —
and hence Count — exclude it, the soft-deleted row is excluded from the
service's GetByEmail uniqueness pre-check, and the storage row itself
persists (row count unchanged, deletion timestamp set); however the
storage-level unique email index still covers the soft-deleted row, so
an insert reusing its email fails with a duplicate-key error rather
than being permitted. -/
theorem C4_soft_delete_effects
    (s : SvcState) (id : Nat) (now : Nat) (s' : SvcState) (u : User)
    (hwf : s.db.wf)
    (hget : repoGetByID id s.db = .ok u)
    (hdel : deleteUser id now true s = (.ok (), s')) :
    (∀ (now2 : Nat) (readOk okSet : Bool),
      (getUserByID id now2 readOk okSet s').1 = .error notFoundMsg) ∧
    s'.db.liveRows = s.db.liveRows.filter (fun v => !(v.id == id)) ∧
    repoCount s'.db =
      ((s.db.liveRows.filter (fun v => !(v.id == id))).length : Int) ∧
    (∀ (page pageSize : Int) (now2 : Nat) (okSet : Bool)
        (resp : List UserResponse) (total : Int),
      (getAllUsers page pageSize now2 okSet s').1 = .ok (resp, total) →
      ∀ r ∈ resp, r.id ≠ id) ∧
    (∃ v ∈ s'.db.rows, v.id = id ∧ v.deletedAt = some now) ∧
    s'.db.rows.length = s.db.rows.length ∧
    repoGetByEmail u.email s'.db = .error notFoundMsg ∧
    (∀ (w : User) (now2 : Nat), w.email = u.email →
      repoCreate w now2 s'.db = .error duplicateMsg) := by
  obtain ⟨hrows, hnext, hany, hcache, hhas⟩ := deleteUser_ok id now s s' hdel
  obtain ⟨humem, hulive, huid⟩ := repoGetByID_elim hget
  have hfind : s'.db.rows.find? (fun v => v.live && v.id == id) = none := by
    rw [hrows]
    exact find?_live_id_after_mark s.db.rows id now
  have hlive2 : s'.db.liveRows = s.db.liveRows.filter (fun v => !(v.id == id)) := by
    unfold DB.liveRows
    rw [hrows]
    exact filter_live_map_mark s.db.rows id now
  refine ⟨?_, hlive2, ?_, ?_, ?_, ?_, ?_, ?_⟩
  · intro now2 readOk okSet
    apply getUserByID_miss_notFound _ _ _ _ _ _ hfind
    by_cases hc : s.hasCache
    · apply getCachedUser_none
      intro e he
      rw [hcache, if_pos hc] at he
      have := List.of_mem_filter he
      simpa using this
    · exact getCachedUser_none_of_noCache _ _ _ _
        (by rw [hhas]; exact Bool.not_eq_true _ |>.mp hc)
  · unfold repoCount
    rw [hlive2]
  · intro page pageSize now2 okSet resp total hres
    rw [getAllUsers_fst] at hres
    simp only [Except.ok.injEq, Prod.mk.injEq] at hres
    obtain ⟨hresp, -⟩ := hres
    subst hresp
    intro r hr
    obtain ⟨v, hv, rfl⟩ := List.mem_map.mp hr
    have hv1 : v ∈ s'.db.liveRows := by
      unfold repoGetAll at hv
      exact List.mem_of_mem_drop (List.mem_of_mem_take hv)
    rw [hlive2] at hv1
    have := List.of_mem_filter hv1
    simpa [User.toResponse] using this
  · obtain ⟨v, hv, hvp⟩ := List.any_eq_true.mp hany
    refine ⟨markDeleted id now v, by rw [hrows]; exact List.mem_map_of_mem _ hv, ?_, ?_⟩
    · unfold markDeleted
      rw [if_pos hvp]
      simpa using (Bool.and_eq_true _ _).mp hvp |>.2
    · unfold markDeleted
      rw [if_pos hvp]
  · rw [hrows, List.length_map]
  · unfold repoGetByEmail
    rw [List.find?_eq_none.mpr ?_]
    intro x hx
    rw [hrows] at hx
    obtain ⟨w, hw, rfl⟩ := List.mem_map.mp hx
    simp only [Bool.and_eq_true, beq_iff_eq]
    rintro ⟨hxl, hxe⟩
    rw [markDeleted_email] at hxe
    by_cases hm : (w.live && w.id == id) = true
    · have := markDeleted_not_live id now w (by simpa using hm)
      rw [this] at hxl
      cases hxl
    · have hweq : markDeleted id now w = w := by
        unfold markDeleted
        rw [if_neg (by simp [hm])]
      rw [hweq] at hxl
      have : w = u := wf_email_inj hwf hw humem hxe
      subst this
      apply hm
      simp [hxl, huid]
  · intro w now2 hwe
    unfold repoCreate
    rw [if_pos ?_]
    rw [List.any_eq_true]
    refine ⟨markDeleted id now u, by rw [hrows]; exact List.mem_map_of_mem _ humem, ?_⟩
    simp [markDeleted_email, hwe]

/-- C4 witness: concrete soft delete of user 1 and its visible effects. -/
theorem C4_witness :
    (getUserByID 1 40 true true (deleteUser 1 6 true wStateCache).2).1 =
      .error notFoundMsg ∧
    (deleteUser 1 6 true wStateCache).2.db.liveRows =
      wStateCache.db.liveRows.filter (fun v => !(v.id == 1)) ∧
    (∃ v ∈ (deleteUser 1 6 true wStateCache).2.db.rows,
      v.id = 1 ∧ v.deletedAt = some 6) ∧
    (deleteUser 1 6 true wStateCache).2.db.rows.length =
      wStateCache.db.rows.length ∧
    repoGetByEmail wUser1.email (deleteUser 1 6 true wStateCache).2.db =
      .error notFoundMsg := by
  have h := C4_soft_delete_effects wStateCache 1 6 (deleteUser 1 6 true wStateCache).2
    wUser1 (by constructor <;> decide) rfl rfl
  exact ⟨h.1 40 true true, h.2.1, h.2.2.2.2.1, h.2.2.2.2.2.1, h.2.2.2.2.2.2.1⟩

theorem createUser_fst_congr (req : UserRequest) (now : Nat) (ok1 ok2 : Bool)
    (s1 s2 : SvcState) (h : s1.db = s2.db) :
    (createUser req now ok1 s1).1 = (createUser req now ok2 s2).1 := by
  unfold createUser
  simp only [logEvent_db, h]
  cases repoGetByEmail req.email s2.db
  · dsimp only
    cases repoCreate _ now s2.db <;> rfl
  · rfl

theorem updateUserTail_fst_congr (user : User) (req : UserRequest) (now : Nat)
    (ok1 ok2 : Bool) (s1 s2 : SvcState) (h : s1.db = s2.db) :
    (updateUserTail user req now ok1 s1).1 = (updateUserTail user req now ok2 s2).1 := by
  unfold updateUserTail
  simp only [logEvent_db, h]
  cases repoUpdate (user.updateFromRequest req) now s2.db <;> rfl

theorem updateUser_fst_congr (id : Nat) (req : UserRequest) (now : Nat)
    (ok1 ok2 : Bool) (s1 s2 : SvcState) (h : s1.db = s2.db) :
    (updateUser id req now ok1 s1).1 = (updateUser id req now ok2 s2).1 := by
  unfold updateUser
  simp only [logEvent_db, h]
  cases repoGetByID id s2.db
  · rfl
  · dsimp only
    split
    · cases repoGetByEmail req.email s2.db
      · exact updateUserTail_fst_congr _ req now ok1 ok2 _ _ (by simp [h])
      · dsimp only
        split
        · rfl
        · exact updateUserTail_fst_congr _ req now ok1 ok2 _ _ (by simp [h])
    · exact updateUserTail_fst_congr _ req now ok1 ok2 _ _ (by simp [h])

theorem deleteUser_fst_congr (id : Nat) (now : Nat) (ok1 ok2 : Bool)
    (s1 s2 : SvcState) (h : s1.db = s2.db) :
    (deleteUser id now ok1 s1).1 = (deleteUser id now ok2 s2).1 := by
  unfold deleteUser
  simp only [logEvent_db, h]
  cases repoDelete id now s2.db <;> rfl

theorem getCachedUser_some (readOk : Bool) (now id : Nat) (s : SvcState) (u : User)
    (h : (getCachedUser readOk now id s).1 = some u) :
    ∃ e ∈ s.cache, e.key = id ∧ e.val = u ∧ now < e.expiresAt := by
  unfold getCachedUser at h
  split at h
  · dsimp only at h
    split at h
    · split at h
      · rename_i e he
        split at h
        · rename_i hexp
          simp only [logEvent_cache] at he
          simp only [Option.some.injEq] at h
          exact ⟨e, List.mem_of_find?_eq_some he,
            by simpa using List.find?_some he, h, hexp⟩
        · cases h
      · cases h
    · cases h
  · cases h

theorem getUserByID_fst (id : Nat) (now : Nat) (readOk okSet : Bool) (s : SvcState)
    (hco : coherent now s) :
    (getUserByID id now readOk okSet s).1 =
      match repoGetByID id s.db with
      | .ok u => .ok u.toResponse
      | .error e => .error e := by
  unfold getUserByID
  cases hq : getCachedUser readOk now id s with
  | mk o s2 =>
    have hdb : s2.db = s.db := by
      have h2 : (getCachedUser readOk now id s).2 = s2 := by rw [hq]
      rw [← h2, getCachedUser_snd_db]
    cases o with
    | some u =>
      dsimp only
      obtain ⟨e, he, hkey, hval, hexp⟩ :=
        getCachedUser_some readOk now id s u (by rw [hq])
      have hrepo := hco e he hexp
      rw [hkey] at hrepo
      rw [hrepo, hval]
    | none =>
      dsimp only
      simp only [logEvent_db, hdb]
      cases hr : repoGetByID id s.db <;> rfl

/-- C7: over a coherent cache state, every service operation returns
exactly the result it returns with the cache client absent (nil), for
every success/failure behavior of the cache backend: no cache read,
write or delete — and no failure of one — ever changes an operation's
result or surfaces as an error. -/
theorem C7_cache_transparency
    (s : SvcState) (now : Nat) (hco : coherent now s) :
    (∀ req okSet, (createUser req now okSet s).1 =
        (createUser req now false { s with hasCache := false }).1) ∧
    (∀ id readOk okSet, (getUserByID id now readOk okSet s).1 =
        (getUserByID id now false false { s with hasCache := false }).1) ∧
    (∀ page pageSize okSet, (getAllUsers page pageSize now okSet s).1 =
        (getAllUsers page pageSize now false { s with hasCache := false }).1) ∧
    (∀ id req okSet, (updateUser id req now okSet s).1 =
        (updateUser id req now false { s with hasCache := false }).1) ∧
    (∀ id okDel, (deleteUser id now okDel s).1 =
        (deleteUser id now false { s with hasCache := false }).1) := by
  refine ⟨?_, ?_, ?_, ?_, ?_⟩
  · intro req okSet
    exact createUser_fst_congr req now okSet false s _ rfl
  · intro id readOk okSet
    rw [getUserByID_fst id now readOk okSet s hco,
        getUserByID_fst id now false false { s with hasCache := false } hco]
  · intro page pageSize okSet
    rw [getAllUsers_fst, getAllUsers_fst]
  · intro id req okSet
    exact updateUser_fst_congr id req now okSet false s _ rfl
  · intro id okDel
    exact deleteUser_fst_congr id now okDel false s _ rfl

def wStateCoherent : SvcState :=
  { db := { rows := [wUser1, wUser2], nextId := 3 },
    cache := [⟨1, wUser1, 900000000010⟩], hasCache := true, trace := [] }

/-- C7 witness: a concrete coherent cached state; results agree with
the nil-cache service even when the cache backend fails. -/
theorem C7_witness :
    (getUserByID 1 10 true true wStateCoherent).1 =
      (getUserByID 1 10 false false { wStateCoherent with hasCache := false }).1 ∧
    (createUser wBadNameReq 10 false wStateCoherent).1 =
      (createUser wBadNameReq 10 false { wStateCoherent with hasCache := false }).1 ∧
    (deleteUser 2 10 false wStateCoherent).1 =
      (deleteUser 2 10 false { wStateCoherent with hasCache := false }).1 := by
  have h := C7_cache_transparency wStateCoherent 10 (by
    intro e he hexp
    simp only [wStateCoherent, List.mem_singleton] at he
    subst he
    rfl)
  exact ⟨h.2.1 1 true true, h.1 wBadNameReq false, h.2.2.2.2 2 false⟩

@[simp] theorem cacheUser_hasCache (ok : Bool) (now : Nat) (u : User) (s : SvcState) :
    (cacheUser ok now u s).hasCache = s.hasCache := by
  unfold cacheUser logEvent
  split
  · split <;> rfl
  · rfl

@[simp] theorem getCachedUser_snd_cache (readOk : Bool) (now id : Nat) (s : SvcState) :
    (getCachedUser readOk now id s).2.cache = s.cache := by
  unfold getCachedUser
  split
  · dsimp only
    split
    · split
      · split <;> rfl
      · rfl
    · rfl
  · rfl

@[simp] theorem getCachedUser_snd_hasCache (readOk : Bool) (now id : Nat)
    (s : SvcState) :
    (getCachedUser readOk now id s).2.hasCache = s.hasCache := by
  unfold getCachedUser
  split
  · dsimp only
    split
    · split
      · split <;> rfl
      · rfl
    · rfl
  · rfl

theorem cacheUser_cache_of_true (now : Nat) (u : User) (s : SvcState)
    (hc : s.hasCache = true) :
    (cacheUser true now u s).cache =
      s.cache.filter (fun e => e.key != u.id) ++ [⟨u.id, u, now + cacheTTL⟩] := by
  unfold cacheUser
  rw [if_pos hc]
  rfl

theorem find?_key_filter_append (c : List CacheEntry) (id : Nat) (e : CacheEntry)
    (he : e.key = id) :
    (c.filter (fun x => x.key != id) ++ [e]).find? (fun x => x.key == id) = some e := by
  rw [List.find?_append]
  have h1 : (c.filter (fun x => x.key != id)).find? (fun x => x.key == id) = none := by
    rw [List.find?_eq_none]
    intro x hx
    have := List.of_mem_filter hx
    simpa using this
  rw [h1]
  simp [he]

theorem mem_filter_append_key (c : List CacheEntry) (k : Nat) (entry : CacheEntry) :
    ∀ e ∈ c.filter (fun x => x.key != k) ++ [entry], e.key = k → e = entry := by
  intro e he hek
  rcases List.mem_append.mp he with h | h
  · have := List.of_mem_filter h
    simp only [bne_iff_ne, ne_eq] at this
    exact absurd hek this
  · simpa using h

theorem find?_map_replace (rows : List User) (q : User → Bool) (w : User)
    (hex : ∃ x ∈ rows, q x = true) (hw : q w = true) :
    (rows.map (fun v => if q v then w else v)).find? q = some w := by
  induction rows with
  | nil =>
    obtain ⟨x, hx, -⟩ := hex
    cases hx
  | cons a rows ih =>
    by_cases ha : q a = true
    · simp only [List.map_cons, ha, if_true]
      rw [List.find?_cons_of_pos _ hw]
    · simp only [List.map_cons, ha, Bool.false_eq_true, if_false]
      rw [List.find?_cons_of_neg _ (by simp [ha])]
      apply ih
      obtain ⟨x, hx, hq⟩ := hex
      rcases List.mem_cons.mp hx with h | h
      · rw [h] at hq
        exact absurd hq (by simp [ha])
      · exact ⟨x, h, hq⟩

theorem getCachedUser_some_hasCache (readOk : Bool) (now id : Nat) (s : SvcState)
    (u : User) (h : (getCachedUser readOk now id s).1 = some u) :
    s.hasCache = true := by
  unfold getCachedUser at h
  split at h
  · assumption
  · cases h

theorem getUserByID_fst_cases (id : Nat) (now : Nat) (readOk okSet : Bool)
    (s : SvcState) :
    (getUserByID id now readOk okSet s).1 =
      match (getCachedUser readOk now id s).1 with
      | some u => .ok u.toResponse
      | none =>
        match repoGetByID id s.db with
        | .ok u => .ok u.toResponse
        | .error e => .error e := by
  unfold getUserByID
  cases hq : getCachedUser readOk now id s with
  | mk o s2 =>
    have hdb : s2.db = s.db := by
      have h2 : (getCachedUser readOk now id s).2 = s2 := by rw [hq]
      rw [← h2, getCachedUser_snd_db]
    cases o with
    | some u => rfl
    | none =>
      dsimp only
      simp only [logEvent_db, hdb]
      cases hr : repoGetByID id s.db <;> rfl

theorem updateUserTail_ok2 (user : User) (req : UserRequest) (now : Nat)
    (s : SvcState) (resp : UserResponse) (s' : SvcState)
    (h : updateUserTail user req now true s = (.ok resp, s')) :
    resp = ({ user.updateFromRequest req with updatedAt := now } : User).toResponse ∧
    s'.db.rows = s.db.rows.map (fun v =>
      if v.live && v.id == user.id then
        { user.updateFromRequest req with updatedAt := now } else v) ∧
    s'.hasCache = s.hasCache ∧
    (s.hasCache = true → s'.cache =
      s.cache.filter (fun e => e.key != user.id) ++
        [⟨user.id, { user.updateFromRequest req with updatedAt := now }, now + cacheTTL⟩]) := by
  unfold updateUserTail at h
  simp only [logEvent_db] at h
  unfold repoUpdate at h
  split at h
  · simp at h
  · rename_i created db heq
    split at heq
    · simp at heq
    · simp only [Except.ok.injEq, Prod.mk.injEq] at heq
      obtain ⟨hsaved, hdb⟩ := heq
      subst hsaved
      subst hdb
      rw [Prod.mk.injEq] at h
      obtain ⟨h1, h2⟩ := h
      simp only [Except.ok.injEq] at h1
      subst h2
      refine ⟨h1.symm, ?_, ?_, ?_⟩
      · simp only [cacheUser_db_eq]
        rfl
      · simp only [cacheUser_hasCache]
        rfl
      · intro hcc
        rw [cacheUser_cache_of_true _ _ _ (by simpa using hcc)]
        rfl

theorem updateUser_ok_parts (id : Nat) (req : UserRequest) (now : Nat)
    (s : SvcState) (resp : UserResponse) (s' : SvcState)
    (hok : updateUser id req now true s = (.ok resp, s')) :
    ∃ u, repoGetByID id s.db = .ok u ∧
      resp = ({ u.updateFromRequest req with updatedAt := now } : User).toResponse ∧
      s'.hasCache = s.hasCache ∧
      s'.db.rows = s.db.rows.map (fun v =>
        if v.live && v.id == u.id then
          { u.updateFromRequest req with updatedAt := now } else v) ∧
      (s.hasCache = true → s'.cache =
        s.cache.filter (fun e => e.key != u.id) ++
          [⟨u.id, { u.updateFromRequest req with updatedAt := now }, now + cacheTTL⟩]) := by
  unfold updateUser at hok
  simp only [logEvent_db] at hok
  cases hg : repoGetByID id s.db with
  | error e =>
    rw [hg] at hok
    simp at hok
  | ok u =>
    rw [hg] at hok
    dsimp only at hok
    have htail : updateUserTail u req now true (logEvent (.getById id) s) = (.ok resp, s') ∨
        updateUserTail u req now true
          (logEvent (.getByEmail req.email) (logEvent (.getById id) s)) = (.ok resp, s') := by
      cases hcq : u.email != req.email with
      | false =>
        simp only [hcq, Bool.false_eq_true, if_false] at hok
        exact .inl hok
      | true =>
        simp only [hcq, if_true] at hok
        cases hfe : repoGetByEmail req.email s.db with
        | ok ex =>
          rw [hfe] at hok
          cases hex : ex.id != id with
          | false =>
            simp only [hex, Bool.false_eq_true, if_false] at hok
            exact .inr hok
          | true =>
            simp only [hex, if_true] at hok
            simp at hok
        | error e =>
          rw [hfe] at hok
          exact .inr hok
    rcases htail with h | h
    · obtain ⟨hr, hrows, hhc, hcc⟩ := updateUserTail_ok2 _ _ _ _ _ _ h
      exact ⟨u, rfl, hr, by simpa using hhc, by simpa using hrows,
        fun hcache => by simpa using hcc (by simpa using hcache)⟩
    · obtain ⟨hr, hrows, hhc, hcc⟩ := updateUserTail_ok2 _ _ _ _ _ _ h
      exact ⟨u, rfl, hr, by simpa using hhc, by simpa using hrows,
        fun hcache => by simpa using hcc (by simpa using hcache)⟩

/-- C8: with a configured, working cache — (A) after a GetUserByID that
missed the cache and populated it from the repository, a second
GetUserByID within the 15-minute TTL answers from the cache alone: its
complete effect is the single cacheGet event (no persistence-gateway
call) and it returns the same response; (B) after a successful
UpdateUser, the next GetUserByID for that id returns the updated
response, whatever the cache read does; (C) after a successful
DeleteUser, the next GetUserByID for that id returns NotFound, never
the stale copy. -/
theorem C8_cache_temporal
    (s : SvcState) (id : Nat) (req : UserRequest)
    (t1 t2 : Nat) (readOk2 okSet2 : Bool)
    (hc : s.hasCache = true) :
    (∀ resp s1, (getCachedUser true t1 id s).1 = none →
      getUserByID id t1 true true s = (.ok resp, s1) →
      t2 < t1 + cacheTTL →
      getUserByID id t2 true okSet2 s1 = (.ok resp, logEvent (.cacheGet id) s1)) ∧
    (∀ resp s1, updateUser id req t1 true s = (.ok resp, s1) →
      (getUserByID id t2 readOk2 okSet2 s1).1 = .ok resp) ∧
    (∀ s1, deleteUser id t1 true s = (.ok (), s1) →
      (getUserByID id t2 readOk2 okSet2 s1).1 = .error notFoundMsg) := by
  refine ⟨?_, ?_, ?_⟩
  · intro resp s1 hmiss hok hlt
    unfold getUserByID at hok
    cases hq : getCachedUser true t1 id s with
    | mk o s2 =>
      rw [hq] at hok hmiss
      dsimp only at hmiss
      subst hmiss
      dsimp only at hok
      have hq2 : (getCachedUser true t1 id s).2 = s2 := by rw [hq]
      have hdb2 : s2.db = s.db := by rw [← hq2, getCachedUser_snd_db]
      have hhc2 : s2.hasCache = s.hasCache := by rw [← hq2, getCachedUser_snd_hasCache]
      simp only [logEvent_db, hdb2] at hok
      cases hr : repoGetByID id s.db with
      | error e =>
        rw [hr] at hok
        simp at hok
      | ok u =>
        rw [hr] at hok
        rw [Prod.mk.injEq] at hok
        obtain ⟨h1, h2⟩ := hok
        simp only [Except.ok.injEq] at h1
        obtain ⟨humem, hulive, huid⟩ := repoGetByID_elim hr
        subst h2
        have hs1h : (cacheUser true t1 u (logEvent (.getById id) s2)).hasCache = true := by
          simp [hhc2, hc]
        have hs1c : (cacheUser true t1 u (logEvent (.getById id) s2)).cache =
            s2.cache.filter (fun e => e.key != u.id) ++ [⟨u.id, u, t1 + cacheTTL⟩] := by
          rw [cacheUser_cache_of_true _ _ _ (by simp [hhc2, hc])]
          rfl
        have hfind : ((cacheUser true t1 u (logEvent (.getById id) s2)).cache).find?
            (fun e => e.key == id) = some ⟨u.id, u, t1 + cacheTTL⟩ := by
          rw [hs1c, huid]
          exact find?_key_filter_append _ id _ rfl
        have hcu : getCachedUser true t2 id (cacheUser true t1 u (logEvent (.getById id) s2)) =
            (some u,
              logEvent (.cacheGet id) (cacheUser true t1 u (logEvent (.getById id) s2))) := by
          unfold getCachedUser
          rw [if_pos hs1h]
          dsimp only
          simp only [logEvent_cache]
          rw [hfind]
          dsimp only
          simp [hlt]
        unfold getUserByID
        rw [hcu]
        dsimp only
        rw [h1]
  · intro resp s1 hok
    obtain ⟨u, hg, hresp, hhas, hrows, hcachef⟩ := updateUser_ok_parts id req t1 s resp s1 hok
    obtain ⟨humem, hulive, huid⟩ := repoGetByID_elim hg
    have hsl : ({ u.updateFromRequest req with updatedAt := t1 } : User).live = true := by
      simpa [User.live, User.updateFromRequest] using hulive
    have hrepo1 : repoGetByID id s1.db =
        .ok { u.updateFromRequest req with updatedAt := t1 } := by
      unfold repoGetByID
      rw [hrows, huid,
        find?_map_replace s.db.rows (fun v => v.live && v.id == id) _
          ⟨u, humem, by simp [hulive, huid]⟩
          (by
            simp only [Bool.and_eq_true, beq_iff_eq]
            exact ⟨hsl, by simp [User.updateFromRequest, huid]⟩)]
    rw [getUserByID_fst_cases]
    cases ho : (getCachedUser readOk2 t2 id s1).1 with
    | none =>
      rw [hrepo1]
      rw [hresp]
    | some w =>
      have hs1h : s1.hasCache = true := getCachedUser_some_hasCache _ _ _ _ _ ho
      obtain ⟨e, he, hk, hv, hexp⟩ := getCachedUser_some _ _ _ _ _ ho
      have hcache := hcachef (by rw [← hhas]; exact hs1h)
      rw [hcache] at he
      have hentry := mem_filter_append_key s.cache u.id
        ⟨u.id, { u.updateFromRequest req with updatedAt := t1 }, t1 + cacheTTL⟩
        e he (by rw [hk, huid])
      rw [hentry] at hv
      rw [← hv, hresp]
  · intro s1 hdel
    obtain ⟨hrows, hnext, hany, hcache, hhas⟩ := deleteUser_ok id t1 s s1 hdel
    apply getUserByID_miss_notFound
    · apply getCachedUser_none
      intro e he
      rw [hcache, if_pos hc] at he
      have := List.of_mem_filter he
      simpa using this
    · rw [hrows]
      exact find?_live_id_after_mark s.db.rows id t1

/-- C8 witness: concrete read-through, update-refresh and
delete-invalidate sequences on the two-user store. -/
theorem C8_witness :
    getUserByID 1 20 true true (getUserByID 1 10 true true wStateCache).2 =
      (.ok wUser1.toResponse,
        logEvent (.cacheGet 1) (getUserByID 1 10 true true wStateCache).2) ∧
    (getUserByID 1 25 true true (updateUser 1 wReqSameEmail 9 true wStateCache).2).1 =
      .ok { id := 1, name := "John Updated", email := "john@example.com", age := 31,
            phone := "", address := "", isActive := true, createdAt := 5,
            updatedAt := 9 } ∧
    (getUserByID 2 50 true true (deleteUser 2 11 true wStateCache).2).1 =
      .error notFoundMsg := by
  have hA := (C8_cache_temporal wStateCache 1 wReqSameEmail 10 20 true true rfl).1
    wUser1.toResponse (getUserByID 1 10 true true wStateCache).2 rfl rfl (by decide)
  have hB := (C8_cache_temporal wStateCache 1 wReqSameEmail 9 25 true true rfl).2.1
    { id := 1, name := "John Updated", email := "john@example.com", age := 31,
      phone := "", address := "", isActive := true, createdAt := 5, updatedAt := 9 }
    (updateUser 1 wReqSameEmail 9 true wStateCache).2 rfl
  have hC := (C8_cache_temporal wStateCache 2 wReqSameEmail 11 50 true true rfl).2.2
    (deleteUser 2 11 true wStateCache).2 rfl
  exact ⟨hA, hB, hC⟩

end UserMgmt
